import Mathlib

/-!
Verification of the alternating scheduler and label-lifecycle manager of
`main.py` (the self-label training controller).  All Python floats are
shallow-embedded as exact rationals (`ℚ`); Python lists become `List`;
operations that can raise (indexing an empty list) return `Option`.
-/

namespace SelfLabel

/-- Learning-rate schedule, `main.py` lines 29-30.  The Python expression
`(epoch < 350) * (lr * 0.1 ** (epoch // lrdrop)) + (epoch >= 350) * lr * 0.1 ** 3`
uses boolean-as-0/1 multiplication, embedded here literally as indicator
factors. -/
def lr_schedule (lr : ℚ) (lrdrop epoch : ℕ) : ℚ :=
  (if epoch < 350 then (1 : ℚ) else 0) * (lr * (1 / 10) ^ (epoch / lrdrop))
    + (if 350 ≤ epoch then (1 : ℚ) else 0) * lr * (1 / 10) ^ 3

/-- Whether the pre-lr-drop checkpoint is written at the start of `epoch`,
`main.py` line 74: `if self.lr_schedule(epoch + 1) != self.lr_schedule(epoch)`. -/
def pre_lr_drop_saved (lr : ℚ) (lrdrop epoch : ℕ) : Bool :=
  decide (lr_schedule lr lrdrop (epoch + 1) ≠ lr_schedule lr lrdrop epoch)

/-- `np.linspace(0, 1, K)`: `K` evenly spaced points from 0 to 1 inclusive;
for `K = 1` numpy returns `[0.0]`, for `K = 0` the empty array. -/
def linspace01 (K : ℕ) : List ℚ :=
  if K = 1 then [0]
  else (List.range K).map (fun (i : ℕ) => (i : ℚ) / ((K : ℚ) - 1))

/-- The reassignment-threshold schedule, `main.py` lines 135-136:
`[(num_epochs + 2) * N] + ((num_epochs + 1.01) * N * (np.linspace(0, 1, nopts) ** 2)[::-1]).tolist()`. -/
def optimize_times (num_epochs N nopts : ℕ) : List ℚ :=
  ((num_epochs : ℚ) + 2) * (N : ℚ) ::
    (((linspace01 nopts).map (fun x => x ^ 2)).reverse.map
      (fun v => ((num_epochs : ℚ) + 101 / 100) * (N : ℚ) * v))

/-- Resume filtering, `main.py` lines 146-147: keep the thresholds `qq` with
`qq / N >= first_epoch` (a boolean mask preserves order). -/
def resume_filter (ts : List ℚ) (first_epoch N : ℕ) : List ℚ :=
  ts.filter (fun qq => decide ((first_epoch : ℚ) ≤ qq / (N : ℚ)))

/-- One batch of the schedule check, `main.py` lines 86-91: peek
`optimize_times[-1]` (an index error on an empty list, hence `Option`), and if
`global_step * batch_size` has reached it, pop it.  Returns the remaining list
and the popped threshold, if any. -/
def batch_step (ts : List ℚ) (gs bs : ℕ) : Option (List ℚ × Option ℚ) :=
  match ts.getLast? with
  | none => none
  | some t =>
    if t ≤ ((gs * bs : ℕ) : ℚ) then some (ts.dropLast, some t) else some (ts, none)

/-- The schedule component of the batch loop run over a list of global steps:
threading the threshold list through `batch_step` and collecting the popped
thresholds in chronological order. -/
def run_schedule (bs : ℕ) : List ℚ → List ℕ → Option (List ℚ × List ℚ)
  | ts, [] => some (ts, [])
  | ts, gs :: rest =>
    match batch_step ts gs bs with
    | none => none
    | some (ts₂, ev) =>
      match run_schedule bs ts₂ rest with
      | none => none
      | some (rem, pops) => some (rem, ev.toList ++ pops)

/-- The numeric-precision modes the trainer's `dtype` field can name:
`torch.float64`, `np.float64` (both 64-bit) and `np.float32` (the reduced
mode the `--dtype f32` option suggests but that `main.py` never selects). -/
inductive DType where
  | torch_f64 : DType
  | np_f64 : DType
  | np_f32 : DType
deriving DecidableEq

/-- A mode is 64-bit floating point. -/
def DType.is_f64 : DType → Bool
  | .np_f32 => false
  | _ => true

/-- The value space of the `--dtype` command-line option (`main.py` line 183,
`choices=['f64', 'f32']`). -/
inductive SKDtypeArg where
  | f64 : SKDtypeArg
  | f32 : SKDtypeArg
deriving DecidableEq

/-- The parsed command-line arguments that the trainer reads
(`build_argument_parser`, `main.py` lines 175-208), with the parser defaults. -/
structure Args where
  epochs : ℕ := 200
  batch_size : ℕ := 256
  lr : ℚ := 8 / 100
  lrdrop : ℕ := 150
  dtype : SKDtypeArg := .f64
  nopts : ℕ := 100
  lamb : ℕ := 25
  cpu : Bool := false
  ncl : ℕ := 3000
  hc : ℕ := 1
deriving DecidableEq

/-- The trainer's dtype field at construction, `main.py` line 49:
`torch.float64 if not args.cpu else np.float64`.  Note `args.dtype` is not
consulted. -/
def trainer_init_dtype (a : Args) : DType :=
  if a.cpu = false then DType.torch_f64 else DType.np_f64

/-- The resume-relevant trainer fields set by `Trainer.__init__`. -/
structure TrainerFields where
  resume : Bool
  checkpoint_dir : Option String
deriving DecidableEq

/-- `Trainer.__init__`, `main.py` lines 34-38: `checkpoint_dir` is first set to
the constructor argument (line 34), `resume` to `True` (line 36), and then
`checkpoint_dir` is overwritten with `None` (line 37); the shadowing `let`
mirrors the sequential assignments. -/
def trainer_init_fields (ckpt_dir : String) : TrainerFields :=
  let checkpoint_dir : Option String := some ckpt_dir
  let resume : Bool := true
  let checkpoint_dir : Option String := none
  { resume := resume, checkpoint_dir := checkpoint_dir }

/-- The trainer state touched by the reassignment block: the model's
`headcount`, the trainer's `dtype` and the remaining `optimize_times`. -/
structure SKState where
  headcount : ℕ
  dtype : DType
  optimize_times : List ℚ
deriving DecidableEq

/-- Modelled from the spec: `sinkhornknopp.gpu_sk` is repository code not under
`src/`.  Per the spec the model is in single-head mode "for the duration of the
update call" and then restored, so the solver call returns with the model's
`headcount` restored to the number of heads; it rewrites the label assignment
(not tracked here) and leaves the rest of this state unchanged. -/
def gpu_sk (hc : ℕ) (s : SKState) : SKState :=
  { s with headcount := hc }

/-- Modelled from the spec: `sinkhornknopp.cpu_sk` is repository code not under
`src/`; as for `gpu_sk`, the call returns with `headcount` restored to the
number of heads. -/
def cpu_sk (hc : ℕ) (s : SKState) : SKState :=
  { s with headcount := hc }

/-- `Trainer.update_assignment`, `main.py` lines 55-60: the GPU variant when
not in CPU mode and more than one device is available, otherwise the CPU
variant after forcing `self.dtype = np.float64` (line 59). -/
def update_assignment (cpu : Bool) (gpu_count hc : ℕ) (s : SKState) : SKState :=
  if cpu = false ∧ 1 < gpu_count then gpu_sk hc s
  else cpu_sk hc { s with dtype := DType.np_f64 }

/-- The state handed to `update_assignment` inside the triggered branch of the
batch loop, `main.py` lines 88-91: `headcount` set to 1 and the due threshold
popped. -/
def pre_update_state (s : SKState) : SKState :=
  { s with headcount := 1, optimize_times := s.optimize_times.dropLast }

/-- The reassignment block of one batch, `main.py` lines 86-92, on the full
tracked state. -/
def reassign_block (cpu : Bool) (gpu_count hc bs gs : ℕ) (s : SKState) : Option SKState :=
  match s.optimize_times.getLast? with
  | none => none
  | some t =>
    if t ≤ ((gs * bs : ℕ) : ℚ) then
      some (update_assignment cpu gpu_count hc (pre_update_state s))
    else some s

/-- The label/epoch initialization of `Trainer.run`, `main.py` lines 131,
143-157: `first_epoch` starts at 0; if `checkpoint_dir` is not `None` and
`resume` is set, the checkpoint provides the labels and `first_epoch`; then,
whenever `first_epoch == 0`, the labels are (re)initialized fresh.  `none`
stands for the Python name `self.L` being undefined. -/
def run_init {α : Type} (checkpoint_dir : Option String) (resume : Bool)
    (ckpt : α × ℕ) (fresh : α) : Option α × ℕ :=
  let first_epoch : ℕ := 0
  let state :=
    if checkpoint_dir.isSome ∧ resume = true then (some ckpt.1, ckpt.2)
    else ((none : Option α), first_epoch)
  if state.2 = 0 then (some fresh, state.2) else state

/-- The fresh per-head label row before shuffling, `main.py` lines 153-155:
entry `i` is `i % ncl` (each head `h` uses `self.outs[h] = ncl`). -/
def base_row (N ncl : ℕ) : List ℕ :=
  (List.range N).map (fun i => i % ncl)

/-! ## Helper lemmas -/

theorem lr_schedule_closed (lr : ℚ) (d e : ℕ) :
    lr_schedule lr d e
      = (if e < 350 then lr * (1 / 10) ^ (e / d) else lr * (1 / 10) ^ 3) := by
  unfold lr_schedule
  split
  · rw [if_neg (by omega)]
    ring
  · rw [if_pos (by omega)]
    ring

theorem linspace01_mem_bounds (K : ℕ) : ∀ x ∈ linspace01 K, 0 ≤ x ∧ x ≤ 1 := by
  intro x hx
  unfold linspace01 at hx
  split at hx
  · simp only [List.mem_singleton] at hx
    subst hx
    norm_num
  · rename_i hK1
    obtain ⟨i, hi, rfl⟩ := List.mem_map.mp hx
    rw [List.mem_range] at hi
    have hK2 : 2 ≤ K := by omega
    have hd : (0 : ℚ) < (K : ℚ) - 1 := by
      have h2 : (2 : ℚ) ≤ (K : ℚ) := by exact_mod_cast hK2
      linarith
    refine ⟨div_nonneg (Nat.cast_nonneg i) (le_of_lt hd), ?_⟩
    rw [div_le_one hd]
    have hi1 : ((i : ℕ) : ℚ) ≤ ((K - 1 : ℕ) : ℚ) := by exact_mod_cast (by omega : i ≤ K - 1)
    rw [Nat.cast_sub (by omega), Nat.cast_one] at hi1
    linarith

theorem linspace01_length (K : ℕ) : (linspace01 K).length = K := by
  unfold linspace01
  split
  · simp [*]
  · simp

theorem linspace01_pairwise (K : ℕ) : List.Pairwise (· < ·) (linspace01 K) := by
  unfold linspace01
  split
  · simp
  · rename_i hK1
    rcases Nat.eq_zero_or_pos K with rfl | hKpos
    · simp
    · have hK2 : 2 ≤ K := by omega
      have hd : (0 : ℚ) < (K : ℚ) - 1 := by
        have h2 : (2 : ℚ) ≤ (K : ℚ) := by exact_mod_cast hK2
        linarith
      rw [List.pairwise_map]
      refine List.Pairwise.imp_of_mem ?_ (List.pairwise_lt_range K)
      intro a b _ _ hab
      rw [div_lt_div_iff_of_pos_right hd]
      exact_mod_cast hab

theorem optimize_times_tail (E N K : ℕ) :
    (optimize_times E N K).tail
      = ((linspace01 K).map (fun x => ((E : ℚ) + 101 / 100) * (N : ℚ) * x ^ 2)).reverse := by
  unfold optimize_times
  rw [List.tail_cons, List.map_reverse, List.map_map]
  rfl

theorem optimize_times_mem_bounds (E N K : ℕ) :
    ∀ t ∈ optimize_times E N K, 0 ≤ t ∧ t ≤ ((E : ℚ) + 2) * (N : ℚ) := by
  intro t ht
  rcases List.mem_cons.mp ht with rfl | ht2
  · exact ⟨by positivity, le_refl _⟩
  · rw [show (((linspace01 K).map (fun x => x ^ 2)).reverse.map
        (fun v => ((E : ℚ) + 101 / 100) * (N : ℚ) * v))
        = (optimize_times E N K).tail from rfl, optimize_times_tail] at ht2
    rw [List.mem_reverse] at ht2
    obtain ⟨x, hx, rfl⟩ := List.mem_map.mp ht2
    obtain ⟨hx0, hx1⟩ := linspace01_mem_bounds K x hx
    have hN0 : (0 : ℚ) ≤ (N : ℚ) := Nat.cast_nonneg N
    have hE0 : (0 : ℚ) ≤ (E : ℚ) := Nat.cast_nonneg E
    constructor
    · positivity
    · have hsq : x ^ 2 ≤ 1 := by nlinarith
      have hc0 : (0 : ℚ) ≤ ((E : ℚ) + 101 / 100) * (N : ℚ) := by positivity
      have h1 : ((E : ℚ) + 101 / 100) * (N : ℚ) * x ^ 2
          ≤ ((E : ℚ) + 101 / 100) * (N : ℚ) * 1 := mul_le_mul_of_nonneg_left hsq hc0
      have h2 : ((E : ℚ) + 101 / 100) * (N : ℚ) ≤ ((E : ℚ) + 2) * (N : ℚ) :=
        mul_le_mul_of_nonneg_right (by linarith) hN0
      linarith

theorem batch_step_cases (ts : List ℚ) (gs bs : ℕ) (ts₂ : List ℚ) (ev : Option ℚ)
    (h : batch_step ts gs bs = some (ts₂, ev)) :
    ∃ t, ts.getLast? = some t ∧
      ((t ≤ ((gs * bs : ℕ) : ℚ) ∧ ts₂ = ts.dropLast ∧ ev = some t)
        ∨ (¬ t ≤ ((gs * bs : ℕ) : ℚ) ∧ ts₂ = ts ∧ ev = none)) := by
  unfold batch_step at h
  split at h
  · exact absurd h (by simp)
  · rename_i t hl
    refine ⟨t, hl, ?_⟩
    split at h
    · rename_i hle
      obtain ⟨h1, h2⟩ := Prod.mk.injEq .. ▸ Option.some.inj h
      exact Or.inl ⟨hle, h1.symm, h2.symm⟩
    · rename_i hle
      obtain ⟨h1, h2⟩ := Prod.mk.injEq .. ▸ Option.some.inj h
      exact Or.inr ⟨hle, h1.symm, h2.symm⟩

theorem run_schedule_decomp (bs : ℕ) (gss : List ℕ) :
    ∀ ts rem pops, run_schedule bs ts gss = some (rem, pops) →
      rem ++ pops.reverse = ts := by
  induction gss with
  | nil =>
    intro ts rem pops h
    simp only [run_schedule, Option.some.injEq, Prod.mk.injEq] at h
    obtain ⟨rfl, rfl⟩ := h
    simp
  | cons gs rest ih =>
    intro ts rem pops h
    simp only [run_schedule] at h
    split at h
    · exact absurd h (by simp)
    · rename_i p ts₂ ev hbs
      split at h
      · exact absurd h (by simp)
      · rename_i q rem₂ pops₂ hrs
        simp only [Option.some.injEq, Prod.mk.injEq] at h
        obtain ⟨rfl, rfl⟩ := h
        have hd := ih ts₂ rem₂ pops₂ hrs
        obtain ⟨t, hl, hc | hc⟩ := batch_step_cases ts gs bs ts₂ ev hbs
        · obtain ⟨hle, rfl, rfl⟩ := hc
          simp only [Option.toList, List.cons_append, List.nil_append,
            List.reverse_cons]
          rw [← List.append_assoc, hd]
          exact List.dropLast_append_getLast? t hl
        · obtain ⟨hle, rfl, rfl⟩ := hc
          simpa using hd

theorem count_map_mod (m c : ℕ) (hm : 0 < m) (hc : c < m) :
    ∀ N, ((List.range N).map (fun i => i % m)).count c
      = N / m + if c < N % m then 1 else 0 := by
  intro N
  induction N with
  | zero => simp
  | succ n ih =>
    rw [List.range_succ, List.map_append, List.count_append, ih]
    have hcnt : (List.map (fun i => i % m) [n]).count c = if n % m = c then 1 else 0 := by
      simp [List.count_cons]
    rw [hcnt]
    have hr : n % m < m := Nat.mod_lt _ hm
    have hdm := Nat.div_add_mod n m
    rcases Nat.lt_or_ge (n % m + 1) m with h | h
    · have e1 : n + 1 = m * (n / m) + (n % m + 1) := by omega
      have h2 : (n + 1) / m = n / m := by
        rw [e1, Nat.mul_add_div hm, Nat.div_eq_of_lt h, Nat.add_zero]
      have h3 : (n + 1) % m = n % m + 1 := by
        rw [e1, Nat.mul_add_mod, Nat.mod_eq_of_lt h]
      rw [h2, h3]
      split_ifs <;> omega
    · have hm1 : n % m + 1 = m := by omega
      have e0 : m * (n / m + 1) = m * (n / m) + m := by ring
      have e1 : n + 1 = m * (n / m + 1) := by omega
      have h2 : (n + 1) / m = n / m + 1 := by
        rw [e1, Nat.mul_div_cancel_left _ hm]
      have h3 : (n + 1) % m = 0 := by
        rw [e1, Nat.mul_mod_right]
      rw [h2, h3]
      split_ifs <;> omega

/-! ## Claims -/

/-- C1, corrected.  `resume_filter` keeps exactly the thresholds `t` with
`t / N ≥ first_epoch`, and filtering with `first_epoch = 0` returns the
computed sequence unchanged; but filtering the sequence computed for `E`
epochs with `first_epoch = E + 10` returns the empty sequence: the sentinel
`(E + 2) * N` has epoch-equivalent `E + 2 < E + 10`, so it is removed too. -/
theorem c1_resume_filter_amended (E N K : ℕ) (hN : 0 < N) :
    (∀ (ts : List ℚ) (fe : ℕ) (t : ℚ),
        t ∈ resume_filter ts fe N ↔ t ∈ ts ∧ (fe : ℚ) ≤ t / (N : ℚ))
    ∧ resume_filter (optimize_times E N K) 0 N = optimize_times E N K
    ∧ resume_filter (optimize_times E N K) (E + 10) N = [] := by
  have hNQ : (1 : ℚ) ≤ (N : ℚ) := by exact_mod_cast hN
  refine ⟨?_, ?_, ?_⟩
  · intro ts fe t
    simp [resume_filter, List.mem_filter]
  · refine List.filter_eq_self.mpr ?_
    intro t ht
    have hb := optimize_times_mem_bounds E N K t ht
    simp only [decide_eq_true_eq, Nat.cast_zero]
    exact div_nonneg hb.1 (by linarith)
  · refine List.filter_eq_nil_iff.mpr ?_
    intro t ht
    have hb := optimize_times_mem_bounds E N K t ht
    simp only [decide_eq_true_eq, not_le]
    rw [div_lt_iff₀ (by linarith)]
    have hE0 : (0 : ℚ) ≤ (E : ℚ) := Nat.cast_nonneg E
    push_cast
    nlinarith [hb.2]

/-- C1, witness for the amended theorem at `E = 0`, `N = 1`, `K = 1`. -/
theorem c1_witness :
    resume_filter (optimize_times 0 1 1) 0 1 = optimize_times 0 1 1
    ∧ resume_filter (optimize_times 0 1 1) (0 + 10) 1 = [] :=
  ⟨(c1_resume_filter_amended 0 1 1 (by norm_num)).2.1,
    (c1_resume_filter_amended 0 1 1 (by norm_num)).2.2⟩

/-- C1, counterexample to the claim as stated: for `E = 0`, `N = 1`, `K = 1`
the filter with `first_epoch = E + 10` returns the empty list, not the
one-element list holding the sentinel `(E + 2) * N = 2`. -/
theorem c1_counterexample :
    resume_filter (optimize_times 0 1 1) (0 + 10) 1 = []
    ∧ ([] : List ℚ) ≠ [((0 : ℚ) + 2) * ((1 : ℕ) : ℚ)] := by
  constructor
  · norm_num [resume_filter, optimize_times, linspace01, List.filter]
  · simp

/-- C2, corrected (for `N ≥ 1`).  The schedule is the sentinel `(E + 2) * N`
followed by the `K` values `(E + 1.01) * N * linspace(0,1,K)²` in reversed,
strictly descending order; but the smallest non-sentinel value is exactly `0`
(not `> 0`) and the largest is exactly `(E + 1.01) * N` (not `< (E+1.01)*N`). -/
theorem c2_schedule_shape_amended (E N K : ℕ) (hN : 1 ≤ N) :
    (optimize_times E N K).head? = some (((E : ℚ) + 2) * (N : ℚ))
    ∧ (optimize_times E N K).tail.length = K
    ∧ List.Pairwise (· > ·) (optimize_times E N K).tail
    ∧ (∀ t ∈ (optimize_times E N K).tail, 0 ≤ t ∧ t ≤ ((E : ℚ) + 101 / 100) * (N : ℚ))
    ∧ (1 ≤ K → (optimize_times E N K).tail.getLast? = some 0)
    ∧ (2 ≤ K → (optimize_times E N K).tail.head? = some (((E : ℚ) + 101 / 100) * (N : ℚ))) := by
  have hNQ : (1 : ℚ) ≤ (N : ℚ) := by exact_mod_cast hN
  have hc0 : (0 : ℚ) < ((E : ℚ) + 101 / 100) * (N : ℚ) := by positivity
  refine ⟨rfl, ?_, ?_, ?_, ?_, ?_⟩
  · rw [optimize_times_tail]
    simp [linspace01_length]
  · rw [optimize_times_tail, List.pairwise_reverse, List.pairwise_map]
    refine List.Pairwise.imp_of_mem ?_ (linspace01_pairwise K)
    intro a b ha hb hab
    have ha0 := (linspace01_mem_bounds K a ha).1
    have hsq : a ^ 2 < b ^ 2 := pow_lt_pow_left₀ hab ha0 (by norm_num)
    exact (mul_lt_mul_left hc0).mpr hsq
  · intro t ht
    rw [optimize_times_tail, List.mem_reverse] at ht
    obtain ⟨x, hx, rfl⟩ := List.mem_map.mp ht
    obtain ⟨hx0, hx1⟩ := linspace01_mem_bounds K x hx
    have hsq : x ^ 2 ≤ 1 := by nlinarith
    constructor
    · positivity
    · nlinarith
  · intro hK
    rw [optimize_times_tail, List.getLast?_reverse, List.head?_map]
    have hh : (linspace01 K).head? = some 0 := by
      unfold linspace01
      split
      · rfl
      · rename_i hK1
        obtain ⟨K₂, rfl⟩ : ∃ K₂, K = K₂ + 1 := ⟨K - 1, by omega⟩
        rw [List.range_succ_eq_map]
        simp
    rw [hh]
    simp
  · intro hK
    rw [optimize_times_tail, List.head?_reverse, List.getLast?_map]
    have hl : (linspace01 K).getLast? = some 1 := by
      unfold linspace01
      rw [if_neg (by omega)]
      rw [List.getLast?_map]
      obtain ⟨K₂, rfl⟩ : ∃ K₂, K = K₂ + 1 := ⟨K - 1, by omega⟩
      rw [List.range_succ, List.getLast?_concat]
      simp only [Option.map_some']
      congr 1
      have hd : ((K₂ + 1 : ℕ) : ℚ) - 1 = (K₂ : ℚ) := by push_cast; ring
      rw [hd]
      exact div_self (by exact_mod_cast (by omega : K₂ ≠ 0))
    rw [hl]
    simp

/-- C2, witness for the amended theorem at `E = 0`, `N = 1`, `K = 2`. -/
theorem c2_witness :
    (optimize_times 0 1 2).head? = some (((0 : ℚ) + 2) * ((1 : ℕ) : ℚ))
    ∧ (optimize_times 0 1 2).tail.length = 2 :=
  ⟨(c2_schedule_shape_amended 0 1 2 (by norm_num)).1,
    (c2_schedule_shape_amended 0 1 2 (by norm_num)).2.1⟩

/-- C2, counterexample to the claim as stated: for `E = 0`, `N = 1`, `K = 2`
the non-sentinel part contains the value `0`, which is not strictly greater
than `0`, and the value `101/100 = (0 + 1.01) * 1`, which is not strictly less
than `(0 + 1.01) * 1`. -/
theorem c2_counterexample :
    (0 : ℚ) ∈ (optimize_times 0 1 2).tail
    ∧ (101 / 100 : ℚ) ∈ (optimize_times 0 1 2).tail
    ∧ ¬ ((101 / 100 : ℚ) < ((0 : ℚ) + 101 / 100) * ((1 : ℕ) : ℚ)) := by
  refine ⟨?_, ?_, by norm_num⟩
  · norm_num [optimize_times, linspace01, List.range_succ]
  · norm_num [optimize_times, linspace01, List.range_succ]

/-- C3, confirmed.  Across a whole batch-loop run on a duplicate-free
threshold list: consumption only pops the tail (the remaining list followed by
the reversed chronological pop log reassembles the original list), every
threshold is popped at most once and a popped threshold is gone from the
remaining list (so it can never retrigger), the descending-order invariant is
preserved, and in each single batch a reassignment is triggered exactly when
`global_step * batch_size` has reached the tail threshold. -/
theorem c3_threshold_consumption (ts : List ℚ) (bs : ℕ) (gss : List ℕ)
    (rem pops : List ℚ) (hrun : run_schedule bs ts gss = some (rem, pops))
    (hnd : ts.Nodup) :
    rem ++ pops.reverse = ts
    ∧ pops.Nodup
    ∧ (∀ t ∈ pops, t ∉ rem)
    ∧ (List.Pairwise (· > ·) ts → List.Pairwise (· > ·) rem)
    ∧ (∀ (ts₀ : List ℚ) (gs : ℕ) (t₀ : ℚ), ts₀.getLast? = some t₀ →
        batch_step ts₀ gs bs
          = if t₀ ≤ ((gs * bs : ℕ) : ℚ) then some (ts₀.dropLast, some t₀)
            else some (ts₀, none)) := by
  have hd := run_schedule_decomp bs gss ts rem pops hrun
  have hnd2 : (rem ++ pops.reverse).Nodup := hd.symm ▸ hnd
  obtain ⟨hr1, hr2, hdisj⟩ := List.nodup_append.mp hnd2
  refine ⟨hd, List.nodup_reverse.mp hr2, ?_, ?_, ?_⟩
  · intro t htp htr
    exact hdisj htr (List.mem_reverse.mpr htp)
  · intro hpw
    exact hpw.sublist (hd ▸ List.sublist_append_left rem pops.reverse)
  · intro ts₀ gs t₀ h
    unfold batch_step
    rw [h]

/-- C3, witness: a two-batch run with thresholds `[4, 1]` and batch size 2
pops exactly the tail threshold `1` in the second batch. -/
theorem c3_witness :
    ([4] : List ℚ) ++ ([(1 : ℚ)]).reverse = [4, 1] ∧ ([(1 : ℚ)]).Nodup :=
  have h := c3_threshold_consumption [4, 1] 2 [0, 1] [4] [1]
    (by norm_num [run_schedule, batch_step]) (by norm_num)
  ⟨h.1, h.2.1⟩

/-- C4, corrected.  The "pre-lr-drop" checkpoint before the first batch of
epoch `e` is written iff the NEXT epoch's scheduled rate differs from epoch
`e`'s own rate (`lr_schedule(e+1) != lr_schedule(e)`, one epoch before the
change takes effect), not iff epoch `e`'s rate differs from the previous
epoch's.  Under the default configuration (`lr = 0.08`, `lrdrop = 150`) the
checkpoint is written exactly at epochs 149, 299 and 349. -/
theorem c4_pre_lr_drop_amended (lr : ℚ) (lrdrop e : ℕ) :
    (pre_lr_drop_saved lr lrdrop e = true
      ↔ lr_schedule lr lrdrop (e + 1) ≠ lr_schedule lr lrdrop e)
    ∧ (pre_lr_drop_saved (8 / 100) 150 e = true ↔ (e = 149 ∨ e = 299 ∨ e = 349)) := by
  constructor
  · simp [pre_lr_drop_saved]
  · rcases Nat.lt_or_ge e 349 with h | h
    · rcases Nat.lt_or_ge e 149 with h1 | h1
      · have hd : (e + 1) / 150 = e / 150 := by omega
        simp only [pre_lr_drop_saved, lr_schedule_closed, if_pos (show e + 1 < 350 by omega),
          if_pos (show e < 350 by omega), hd, decide_eq_true_eq]
        constructor
        · intro hne; exact absurd rfl hne
        · intro hor; omega
      · rcases Nat.eq_or_lt_of_le h1 with rfl | h1x
        · norm_num [pre_lr_drop_saved, lr_schedule]
        · rcases Nat.lt_or_ge e 299 with h2 | h2
          · have hd : (e + 1) / 150 = e / 150 := by omega
            simp only [pre_lr_drop_saved, lr_schedule_closed, if_pos (show e + 1 < 350 by omega),
              if_pos (show e < 350 by omega), hd, decide_eq_true_eq]
            constructor
            · intro hne; exact absurd rfl hne
            · intro hor; omega
          · rcases Nat.eq_or_lt_of_le h2 with rfl | h2x
            · norm_num [pre_lr_drop_saved, lr_schedule]
            · have hd : (e + 1) / 150 = e / 150 := by omega
              simp only [pre_lr_drop_saved, lr_schedule_closed, if_pos (show e + 1 < 350 by omega),
                if_pos (show e < 350 by omega), hd, decide_eq_true_eq]
              constructor
              · intro hne; exact absurd rfl hne
              · intro hor; omega
    · rcases Nat.eq_or_lt_of_le h with rfl | h3
      · norm_num [pre_lr_drop_saved, lr_schedule]
      · simp only [pre_lr_drop_saved, lr_schedule_closed, if_neg (show ¬ (e + 1 < 350) by omega),
          if_neg (show ¬ (e < 350) by omega), decide_eq_true_eq]
        constructor
        · intro hne; exact absurd rfl hne
        · intro hor; omega

/-- C4, counterexample to the claim as stated: at epoch 150 (defaults
`lr = 0.08`, `lrdrop = 150`) the scheduled rate differs from the previous
epoch's rate, so the claim requires a "pre-lr-drop" checkpoint there, but the
code writes none (`pre_lr_drop_saved` is `false` at epoch 150; the code wrote
it at epoch 149 instead). -/
theorem c4_counterexample :
    pre_lr_drop_saved (8 / 100) 150 150 = false
    ∧ lr_schedule (8 / 100) 150 150 ≠ lr_schedule (8 / 100) 150 149 := by
  constructor
  · norm_num [pre_lr_drop_saved, lr_schedule]
  · norm_num [lr_schedule]

/-- C9, confirmed.  The scheduled learning rate is
`lr * 0.1 ^ (epoch // lrdrop)` for `epoch < 350` and the frozen
`lr * 0.1 ^ 3` for `epoch ≥ 350`; under the defaults `lr = 0.08`,
`lrdrop = 150` it takes the values 0.08, 0.008, 0.0008, 0.00008, 0.00008 at
epochs 0, 150, 300, 350, 1000. -/
theorem c9_lr_schedule (lr : ℚ) (d e : ℕ) :
    lr_schedule lr d e
        = (if e < 350 then lr * (1 / 10) ^ (e / d) else lr * (1 / 10) ^ 3)
    ∧ lr_schedule (8 / 100) 150 0 = 8 / 100
    ∧ lr_schedule (8 / 100) 150 150 = 8 / 1000
    ∧ lr_schedule (8 / 100) 150 300 = 8 / 10000
    ∧ lr_schedule (8 / 100) 150 350 = 8 / 100000
    ∧ lr_schedule (8 / 100) 150 1000 = 8 / 100000 := by
  refine ⟨lr_schedule_closed lr d e, ?_, ?_, ?_, ?_, ?_⟩ <;>
    norm_num [lr_schedule]

/-- C5, confirmed (with the solver's effect modelled from the spec, since
`sinkhornknopp.py` is not under `src/`).  When a threshold triggers a
reassignment, the state handed to `update_assignment` has `headcount = 1`
(single-head mode), and the state in which the batch's forward pass then runs
has `headcount` restored to the previous multi-head setting; an untriggered
batch leaves the state untouched. -/
theorem c5_single_head_restored (cpu : Bool) (gpu_count hc bs gs : ℕ) (s : SKState) (t : ℚ)
    (hl : s.optimize_times.getLast? = some t) (hhc : s.headcount = hc) :
    (t ≤ ((gs * bs : ℕ) : ℚ) →
      (pre_update_state s).headcount = 1
      ∧ reassign_block cpu gpu_count hc bs gs s
          = some (update_assignment cpu gpu_count hc (pre_update_state s))
      ∧ (update_assignment cpu gpu_count hc (pre_update_state s)).headcount = s.headcount)
    ∧ (¬ t ≤ ((gs * bs : ℕ) : ℚ) → reassign_block cpu gpu_count hc bs gs s = some s) := by
  constructor
  · intro hle
    refine ⟨rfl, ?_, ?_⟩
    · unfold reassign_block
      rw [hl]
      exact if_pos hle
    · unfold update_assignment
      split
      · simp [gpu_sk, hhc]
      · simp [cpu_sk, hhc]
  · intro hle
    unfold reassign_block
    rw [hl]
    exact if_neg hle

/-- C5, witness: two heads, CPU path, thresholds `[5, 1]`, a due batch with
`gs * bs = 1`: the updater runs in single-head mode and the forward pass sees
`headcount = 2` again. -/
theorem c5_witness :
    (pre_update_state ⟨2, DType.torch_f64, [5, 1]⟩).headcount = 1
    ∧ (update_assignment true 0 2 (pre_update_state ⟨2, DType.torch_f64, [5, 1]⟩)).headcount
        = (⟨2, DType.torch_f64, [5, 1]⟩ : SKState).headcount :=
  have h := c5_single_head_restored true 0 2 1 1 ⟨2, DType.torch_f64, [5, 1]⟩ 1 rfl rfl
  ⟨(h.1 (by norm_num)).1, (h.1 (by norm_num)).2.2⟩

/-- C6, corrected.  Restored labels are used only when the restored epoch is
at least 1: when the checkpoint restores epoch 0, the `first_epoch == 0` test
reinitializes the labels fresh, overwriting the restored matrix; and in the
shipped constructor `checkpoint_dir` is overwritten with `None`, so the
restore branch of `run` never executes at all. -/
theorem c6_resume_labels_amended {α : Type} (cd : Option String) (r : Bool)
    (ck : α × ℕ) (fr : α) (cds : String) :
    (cd.isSome = true ∧ r = true → 1 ≤ ck.2 → run_init cd r ck fr = (some ck.1, ck.2))
    ∧ (cd.isSome = true ∧ r = true → ck.2 = 0 → run_init cd r ck fr = (some fr, 0))
    ∧ (¬ (cd.isSome = true ∧ r = true) → run_init cd r ck fr = (some fr, 0))
    ∧ (trainer_init_fields cds).checkpoint_dir = none
    ∧ (trainer_init_fields cds).resume = true := by
  refine ⟨?_, ?_, ?_, rfl, rfl⟩
  · intro hc h1
    simp only [run_init]
    rw [if_pos hc]
    rw [if_neg (by omega : ¬ (some ck.1, ck.2).2 = 0)]
  · intro hc h0
    simp only [run_init]
    rw [if_pos hc]
    simp [h0]
  · intro hc
    simp only [run_init]
    rw [if_neg hc]
    simp

/-- C6, witness: with a checkpoint present, resume enabled and restored epoch
3, the restored labels are used unchanged. -/
theorem c6_witness : run_init (some "d") true ((7 : ℕ), 3) 9 = (some 7, 3) :=
  (c6_resume_labels_amended (some "d") true ((7 : ℕ), 3) 9 "d").1 ⟨rfl, rfl⟩ (by norm_num)

/-- C6, counterexample to the claim as stated: a checkpoint exists, resume is
enabled and the restored epoch is 0 with restored labels `0`, yet the labels
used are the fresh ones (`1`), not the restored ones. -/
theorem c6_counterexample :
    run_init (some "d") true ((0 : ℕ), 0) 1 = (some 1, 0)
    ∧ (some (1 : ℕ), (0 : ℕ)) ≠ (some (0 : ℕ), (0 : ℕ)) := by
  constructor
  · rfl
  · simp

/-- C7, corrected.  Popping when only the sentinel remains does not fail and
there is no `EmptyScheduleError` in the code: if the sentinel is due, the pop
succeeds and silently consumes it, exactly as for a real threshold.  The
failure surfaces only one batch later, when the schedule check indexes the
now-empty list (`batch_step` on `[]` is the erroring case, `none`). -/
theorem c7_sentinel_pop_amended (t : ℚ) (gs bs : ℕ) :
    (t ≤ ((gs * bs : ℕ) : ℚ) → batch_step [t] gs bs = some ([], some t))
    ∧ batch_step ([] : List ℚ) gs bs = none := by
  constructor
  · intro hle
    unfold batch_step
    simp only [List.getLast?_singleton]
    rw [if_pos hle]
    rfl
  · rfl

/-- C7, witness: the schedule `[2]` (only the sentinel of `E = 0`, `N = 1`
remaining) with `gs * bs = 2` pops the sentinel. -/
theorem c7_witness : batch_step [(2 : ℚ)] 1 2 = some ([], some 2) :=
  (c7_sentinel_pop_amended 2 1 2).1 (by norm_num)

/-- C7, counterexample to the claim as stated: with `nopts = 0`, `E = 0`,
`N = 1` the schedule holds only the sentinel `(0 + 2) * 1`; at
`global_step * batch_size = 2` the pop succeeds and consumes the sentinel
instead of failing with an `EmptyScheduleError`. -/
theorem c7_counterexample :
    batch_step (optimize_times 0 1 0) 1 2
      = some ([], some (((0 : ℚ) + 2) * ((1 : ℕ) : ℚ))) := by
  norm_num [batch_step, optimize_times, linspace01]

/-- C8, confirmed.  For every head, fresh initialization produces a row that
is a permutation of `(i % clusters_per_head for i in [0..N))` — the
permutation hypothesis is the contract of `np.random.permutation` — hence has
length `N`, entries in `[0, clusters_per_head)`, and each cluster id occurring
either `N / clusters_per_head` or `N / clusters_per_head + 1` times. -/
theorem c8_label_init_balanced (hcnum N ncl : ℕ) (L : ℕ → List ℕ)
    (hL : ∀ h, h < hcnum → (L h).Perm (base_row N ncl)) (hncl : 0 < ncl) :
    ∀ h, h < hcnum →
      (L h).length = N
      ∧ (∀ v ∈ L h, v < ncl)
      ∧ (∀ c, c < ncl →
          (L h).count c = N / ncl ∨ (L h).count c = N / ncl + 1) := by
  intro h hh
  have hp := hL h hh
  refine ⟨?_, ?_, ?_⟩
  · rw [hp.length_eq]
    unfold base_row
    simp
  · intro v hv
    have hm : v ∈ base_row N ncl := hp.mem_iff.mp hv
    obtain ⟨i, hi, rfl⟩ := List.mem_map.mp hm
    exact Nat.mod_lt _ hncl
  · intro c hc
    rw [hp.count_eq]
    unfold base_row
    rw [count_map_mod ncl c hncl hc N]
    split
    · right
      rfl
    · left
      omega

/-- C8, witness: one head, `N = 5`, two clusters, row `[1, 0, 0, 1, 0]` (a
permutation of `[0, 1, 0, 1, 0]`): cluster 0 occurs `5 / 2 + 1 = 3` times. -/
theorem c8_witness :
    ([1, 0, 0, 1, 0] : List ℕ).count 0 = 5 / 2 ∨ ([1, 0, 0, 1, 0] : List ℕ).count 0 = 5 / 2 + 1 :=
  (c8_label_init_balanced 1 5 2 (fun _ => [1, 0, 0, 1, 0])
    (by
      intro h hh
      exact (by decide : ([1, 0, 0, 1, 0] : List ℕ).Perm (base_row 5 2)))
    (by norm_num) 0 (by norm_num)).2.2 0 (by norm_num)

/-- C10, confirmed.  The trainer's `dtype` field is a 64-bit floating-point
mode at construction and after every sequence of `update_assignment` calls,
and the construction is independent of the configured `--dtype` option, so
configuring `f32` never changes the precision mode selected by this core. -/
theorem c10_dtype_always_f64 (a : Args) (d : SKDtypeArg) (hc0 : ℕ) (ts : List ℚ)
    (calls : List (ℕ × ℕ)) :
    trainer_init_dtype { a with dtype := d } = trainer_init_dtype a
    ∧ (trainer_init_dtype a).is_f64 = true
    ∧ ((calls.foldl (fun st c => update_assignment a.cpu c.1 c.2 st)
        ⟨hc0, trainer_init_dtype a, ts⟩).dtype).is_f64 = true := by
  have hinit : (trainer_init_dtype a).is_f64 = true := by
    unfold trainer_init_dtype
    split <;> rfl
  refine ⟨rfl, hinit, ?_⟩
  have key : ∀ (cs : List (ℕ × ℕ)) (s : SKState), s.dtype.is_f64 = true →
      ((cs.foldl (fun st c => update_assignment a.cpu c.1 c.2 st) s).dtype).is_f64 = true := by
    intro cs
    induction cs with
    | nil => intro s hs; exact hs
    | cons c rest ih =>
      intro s hs
      apply ih
      show (update_assignment a.cpu c.1 c.2 s).dtype.is_f64 = true
      unfold update_assignment
      by_cases hcond : a.cpu = false ∧ 1 < c.1
      · rw [if_pos hcond]
        simpa [gpu_sk] using hs
      · rw [if_neg hcond]
        simp [cpu_sk, DType.is_f64]
  exact key calls ⟨hc0, trainer_init_dtype a, ts⟩ hinit

end SelfLabel
